import Mathlib

/-!
Verification of the auto-tools orchestration core: a shallow embedding of
the task scheduler (`scrapy_project/utils/scheduler.py`), the execution
engine (`api_service/execution_engine.py`) and the event-distribution /
log-batching layer (`api_service/websocket_manager.py`), together with
theorems settling the specified properties.

Python `dict`s are modelled as insertion-ordered association lists:
assignment to an existing key replaces the value in place, assignment to a
fresh key appends at the end, `pop` removes the (unique) entry for a key.
-/

namespace AutoTools

/-! ## Insertion-ordered dictionary (Python `dict` semantics) -/

/-- Assignment `d[k] = v` on the underlying entry list: replace in place if the key is
present, append otherwise. -/
def setEntries {β : Type} (l : List (String × β)) (k : String) (v : β) :
    List (String × β) :=
  match l with
  | [] => [(k, v)]
  | (k', v') :: rest =>
    if k' = k then (k, v) :: rest else (k', v') :: setEntries rest k v

/-- Removal `d.pop(k)`: remove the first entry with key `k` (the only one, since a
Python dict has unique keys). -/
def popEntries {β : Type} (l : List (String × β)) (k : String) :
    List (String × β) :=
  match l with
  | [] => []
  | (k', v') :: rest =>
    if k' = k then rest else (k', v') :: popEntries rest k

/-- First binding of key `k`, mirroring `d[k]` / `d.get(k)`. -/
def findEntry {β : Type} (l : List (String × β)) (k : String) : Option β :=
  match l with
  | [] => none
  | (k', v') :: rest => if k' = k then some v' else findEntry rest k

/-- Insertion-ordered dictionary with `String` keys. -/
structure PyDict (β : Type) where
  entries : List (String × β)
deriving DecidableEq, Repr

namespace PyDict

def empty {β : Type} : PyDict β := ⟨[]⟩

def find? {β : Type} (d : PyDict β) (k : String) : Option β :=
  findEntry d.entries k

/-- Membership test `k in d`. -/
def contains {β : Type} (d : PyDict β) (k : String) : Bool :=
  (d.find? k).isSome

/-- Assignment `d[k] = v`. -/
def set {β : Type} (d : PyDict β) (k : String) (v : β) : PyDict β :=
  ⟨setEntries d.entries k v⟩

/-- Removal `d.pop(k)` (the removal part; the returned value is `d.find? k`). -/
def pop {β : Type} (d : PyDict β) (k : String) : PyDict β :=
  ⟨popEntries d.entries k⟩

/-- Key list `list(d.keys())`. -/
def keys {β : Type} (d : PyDict β) : List String :=
  d.entries.map Prod.fst

/-- Value list `list(d.values())`. -/
def values {β : Type} (d : PyDict β) : List β :=
  d.entries.map Prod.snd

/-- Size `len(d)`. -/
def size {β : Type} (d : PyDict β) : Nat :=
  d.entries.length

/-- Well-formedness: a Python dict never holds two bindings of one key. -/
def WF {β : Type} (d : PyDict β) : Prop :=
  d.keys.Nodup

end PyDict


/-! ## Task scheduler (`scrapy_project/utils/scheduler.py`) -/

/-- The `TaskStatus` string enum. -/
inductive TaskStatus where
  | pending
  | queued
  | running
  | completed
  | failed
  | cancelled
deriving DecidableEq, Repr

/-- The `Task` class. `priority` carries the numeric value of the
`TaskPriority` int enum (LOW=0, NORMAL=1, HIGH=2, URGENT=3); timestamps are
abstract ticks. Callback and metadata fields are irrelevant to the claims
and omitted. -/
structure Task where
  id : String
  url : String
  priority : Nat
  maxRetries : Nat
  currentRetry : Nat
  status : TaskStatus
  error : Option String
  createdAt : Nat
  startedAt : Option Nat
  completedAt : Option Nat
deriving DecidableEq, Repr

/-- A freshly constructed task (`Task.__init__` defaults). -/
def Task.mkNew (id url : String) (priority : Nat) (maxRetries : Nat := 3)
    (createdAt : Nat := 0) : Task :=
  { id := id, url := url, priority := priority, maxRetries := maxRetries,
    currentRetry := 0, status := .pending, error := none,
    createdAt := createdAt, startedAt := none, completedAt := none }

/-- The four task collections of `TaskScheduler` plus its configuration. -/
structure SchedulerState where
  pendingTasks : PyDict Task
  runningTasks : PyDict Task
  completedTasks : PyDict Task
  failedTasks : PyDict Task
  maxConcurrent : Nat
  maxRetries : Nat
deriving DecidableEq, Repr

/-- Constructor `TaskScheduler.__init__`. -/
def initScheduler (maxConcurrent : Nat := 4) (maxRetries : Nat := 3) :
    SchedulerState :=
  { pendingTasks := PyDict.empty, runningTasks := PyDict.empty,
    completedTasks := PyDict.empty, failedTasks := PyDict.empty,
    maxConcurrent := maxConcurrent, maxRetries := maxRetries }

/-- Method `TaskScheduler.add_task`: `self.pending_tasks[task.id] = task`. -/
def addTask (s : SchedulerState) (t : Task) : SchedulerState :=
  { s with pendingTasks := s.pendingTasks.set t.id t }

/-- Python `max` over a non-empty list of naturals (`max(...)` at
scheduler.py:126); the 0 seed is absorbed because the list is non-empty. -/
def pyMax (l : List Nat) : Nat := l.foldl max 0

/-- The selection at the heart of `TaskScheduler.get_next_task`: over the
pending entries (dict insertion order), compute the highest priority
value and take the first entry holding it (`task_ids[0]`). Returns `none`
exactly on the empty dict — on a non-empty list the `find?` always
succeeds, since the maximum is attained. Since every reachable dict has
unique keys, iterating over `entries` agrees with the source's
key-list-then-value-lookup iteration. -/
def getNextFromEntries (l : List (String × Task)) : Option (String × Task) :=
  match l with
  | [] => none
  | e :: es =>
    let highest := pyMax ((e :: es).map (fun p => p.2.priority))
    (e :: es).find? (fun p => p.2.priority == highest)

/-- Method `TaskScheduler.get_next_task`: `None` when nothing is pending,
otherwise select the first highest-priority pending entry and `pop` it
out of the pending dict. -/
def getNextTask (s : SchedulerState) : Option Task × SchedulerState :=
  match getNextFromEntries s.pendingTasks.entries with
  | some (taskId, task) =>
    (some task, { s with pendingTasks := s.pendingTasks.pop taskId })
  | none => (none, s)

/-- Method `TaskScheduler.run_task` (minus the thread-pool submission, which is
modelled by the separate `execTaskErrback` / `onTaskComplete` steps):
refuse when the running dict is at the concurrency bound or the id is
already running; otherwise mark RUNNING, record `started_at` and insert
into the running dict. -/
def runTask (s : SchedulerState) (t : Task) (now : Nat) :
    Bool × SchedulerState :=
  if s.maxConcurrent ≤ s.runningTasks.size then (false, s)
  else if s.runningTasks.contains t.id then (false, s)
  else
    let t' := { t with status := .running, startedAt := some now }
    (true, { s with runningTasks := s.runningTasks.set t.id t' })

/-- The `_errback` closure inside `TaskScheduler._execute_task`, applied to
the captured task: record the error, bump the retry counter, and either
re-enqueue the task as QUEUED into `pending_tasks` (retries remaining) or
mark it FAILED. Note it does not touch `running_tasks`. -/
def execTaskErrback (s : SchedulerState) (t : Task) (err : String) :
    SchedulerState :=
  let t1 := { t with error := some err, currentRetry := t.currentRetry + 1 }
  if t1.currentRetry < t1.maxRetries then
    let t2 := { t1 with status := TaskStatus.queued }
    { s with pendingTasks := s.pendingTasks.set t2.id t2 }
  else
    -- terminal failure: only the task object is mutated
    -- (`_on_task_complete` later moves it out of `running_tasks`)
    s

/-- Callback `TaskScheduler._on_task_complete`: pop the task from the running dict
and file it under completed or failed according to its status. -/
def onTaskComplete (s : SchedulerState) (taskId : String) : SchedulerState :=
  match s.runningTasks.find? taskId with
  | none => s
  | some t =>
    let s' := { s with runningTasks := s.runningTasks.pop taskId }
    if t.status = TaskStatus.completed then
      { s' with completedTasks := s'.completedTasks.set taskId t }
    else if t.status = TaskStatus.failed then
      { s' with failedTasks := s'.failedTasks.set taskId t }
    else s'

/-- Method `TaskScheduler.cancel_task`. -/
def cancelTask (s : SchedulerState) (taskId : String) (now : Nat) :
    Bool × SchedulerState :=
  if s.pendingTasks.contains taskId then
    (true, { s with pendingTasks := s.pendingTasks.pop taskId })
  else
    match s.runningTasks.find? taskId with
    | some t =>
      let t' := { t with status := TaskStatus.cancelled, completedAt := some now }
      (true, { s with runningTasks := s.runningTasks.set taskId t' })
    | none => (false, s)

/-- Method `TaskScheduler.retry_task`. -/
def retryTask (s : SchedulerState) (taskId : String) :
    Bool × SchedulerState :=
  match s.failedTasks.find? taskId with
  | none => (false, s)
  | some t =>
    let t' := { t with currentRetry := 0, status := TaskStatus.pending, error := none }
    (true,
      { s with
        failedTasks := s.failedTasks.pop taskId
        pendingTasks := s.pendingTasks.set taskId t' })

/-- Scheduler statistics record (`TaskScheduler.get_statistics`). -/
structure SchedulerStats where
  pendingCount : Nat
  runningCount : Nat
  completedCount : Nat
  failedCount : Nat
  maxConcurrentStat : Nat
  utilization : ℚ
deriving DecidableEq, Repr

/-- Method `TaskScheduler.get_statistics`: the four counts plus
`len(running) / max_concurrent if max_concurrent > 0 else 0`. -/
def getStatistics (s : SchedulerState) : SchedulerStats :=
  { pendingCount := s.pendingTasks.size,
    runningCount := s.runningTasks.size,
    completedCount := s.completedTasks.size,
    failedCount := s.failedTasks.size,
    maxConcurrentStat := s.maxConcurrent,
    utilization :=
      if 0 < s.maxConcurrent then
        (s.runningTasks.size : ℚ) / (s.maxConcurrent : ℚ)
      else 0 }

/-- One observable scheduler operation (public API call or internal
thread-pool callback). -/
inductive SchedOp where
  | add (t : Task)
  | next
  | run (t : Task) (now : Nat)
  | errback (t : Task) (err : String)
  | complete (taskId : String)
  | cancel (taskId : String) (now : Nat)
  | retry (taskId : String)
deriving DecidableEq, Repr

/-- Effect of one operation on the scheduler state. -/
def schedStep (s : SchedulerState) (op : SchedOp) : SchedulerState :=
  match op with
  | .add t => addTask s t
  | .next => (getNextTask s).2
  | .run t now => (runTask s t now).2
  | .errback t err => execTaskErrback s t err
  | .complete taskId => onTaskComplete s taskId
  | .cancel taskId now => (cancelTask s taskId now).2
  | .retry taskId => (retryTask s taskId).2

/-- Run a sequence of operations. -/
def schedRun (s : SchedulerState) (ops : List SchedOp) : SchedulerState :=
  ops.foldl schedStep s

/-! ## Execution engine (`api_service/execution_engine.py`)

The engine is embedded as a trace generator: websocket/event emissions,
`execute_action` dispatches to the browser worker, worker-session closes
and log flushes become events in an explicit state. The environment
(whether the browser starts, each action's reported outcome, whether an
exception or a cancellation escapes the loop, whether captures succeed)
is an explicit parameter. Message texts, payload details and timing are
abstracted; control flow, guards and ordering follow the source. -/

/-- The `performance` configuration section consumed by
`ExecutionEngine._send_screenshot`. -/
structure PerfConfig where
  disableRealtimeScreenshot : Bool
  screenshotInterval : Nat
deriving DecidableEq, Repr

/-- Method `ExecutionEngine._send_screenshot`, reduced to whether a screenshot
event is emitted. Guard order mirrors the source: the disable switch is
checked first (bypassed by `force`), then the stride
`action_index % screenshot_interval != 0` (short-circuited away by
`force`; with `screenshot_interval == 0` the Python modulo raises
`ZeroDivisionError`, which the surrounding `except` swallows, so nothing
is emitted), then the capture itself must yield bytes (`shotOk`). -/
def sendScreenshot (cfg : PerfConfig) (actionIndex : Nat) (force : Bool)
    (shotOk : Bool) : Bool :=
  if cfg.disableRealtimeScreenshot && !force then false
  else if !force && cfg.screenshotInterval == 0 then false
  else if !force && actionIndex % cfg.screenshotInterval != 0 then false
  else shotOk

/-- Observable engine events (websocket emissions and worker calls). -/
inductive EngEvent where
  | statusEv (status : String) (progress : Nat)
  | progressEv (actionIndex totalActions : Nat)
  | logEv (level : String) (actionName : String)
  | resultEv
  | errorEv
  | screenshotEv (actionIndex : Nat)
  | sentAction (index : Nat)
  | closeWorker
  | flushAllEv
deriving DecidableEq, Repr

/-- Engine-side state threaded through `execute_task`: whether
`task_id ∈ self.browser_contexts`, a count of `browser_wrapper.close()`
calls, a count of `batch_log_manager.flush_all()` calls, and the emitted
event trace. -/
structure EngState where
  inContexts : Bool
  closes : Nat
  flushes : Nat
  events : List EngEvent
deriving DecidableEq, Repr

def EngState.emit (s : EngState) (e : EngEvent) : EngState :=
  { s with events := s.events ++ [e] }

/-- Environment of one `execute_task` run: does the browser start, the
`(success, returned-a-dict)` outcome each `execute_action` reports,
whether (and where, and as what) an exception escapes the action loop,
and whether screenshot captures return bytes. -/
structure RunEnv where
  startOk : Bool
  outcomes : List (Bool × Bool)
  interrupt : Option (Nat × Bool)
  shotOk : Bool
deriving DecidableEq, Repr

/-- Method `ExecutionEngine._close_browser`: guarded by
`task_id in self.browser_contexts`; closes the wrapper exactly when the
context is present and then deletes the entry. -/
def closeBrowser (s : EngState) : EngState :=
  if s.inContexts then
    let s := s.emit (.logEv "info" "browser_close")
    let s := { s with closes := s.closes + 1, events := s.events ++ [EngEvent.closeWorker] }
    let s := s.emit (.logEv "info" "browser_close")
    { s with inContexts := false }
  else s

/-- A `_send_screenshot` call inside the engine. -/
def screenshotStep (cfg : PerfConfig) (shotOk : Bool) (actionIndex : Nat)
    (force : Bool) (s : EngState) : EngState :=
  if sendScreenshot cfg actionIndex force shotOk then
    s.emit (.screenshotEv actionIndex)
  else s

/-- One iteration of the action loop in `_run_actions` for the action at
`index`: progress event, info log, `execute_action` dispatch, then — on
reported success — a success log (plus a result event when the action
returned a dict), on reported failure a warning log saying the action is
skipped; finally a `_send_screenshot(index+1)`. The loop continues in
either case. -/
def actionStep (cfg : PerfConfig) (shotOk : Bool) (total : Nat)
    (index : Nat) (outcome : Bool × Bool) (s : EngState) : EngState :=
  let s := s.emit (.progressEv (index + 1) total)
  let s := s.emit (.logEv "info" "action")
  let s := s.emit (.sentAction index)
  let s :=
    if outcome.1 then
      let s := s.emit (.logEv "success" "action")
      if outcome.2 then s.emit .resultEv else s
    else s.emit (.logEv "warning" "action")
  screenshotStep cfg shotOk (index + 1) false s

/-- How the action loop exits: normally, or through an exception
(`isCancel` distinguishing `asyncio.CancelledError`) escaping an `await`
of the iteration — the per-action `try` only shields `execute_action`. -/
inductive LoopExit where
  | normal
  | raised (isCancel : Bool)
deriving DecidableEq, Repr

/-- The `for index, action in enumerate(actions)` loop. If the
environment injects an exception at iteration `k`, iterations `0..k-1`
run normally and the loop aborts at `k` before that iteration's events. -/
def actionLoop (cfg : PerfConfig) (shotOk : Bool) (total : Nat)
    (interrupt : Option (Nat × Bool)) (index : Nat)
    (outcomes : List (Bool × Bool)) (s : EngState) : EngState × LoopExit :=
  match outcomes with
  | [] => (s, .normal)
  | outcome :: rest =>
    match interrupt with
    | some (k, isCancel) =>
      if k = index then (s, .raised isCancel)
      else
        actionLoop cfg shotOk total interrupt (index + 1) rest
          (actionStep cfg shotOk total index outcome s)
    | none =>
      actionLoop cfg shotOk total interrupt (index + 1) rest
        (actionStep cfg shotOk total index outcome s)

/-- The action loop of `_run_actions` together with its normal-exit tail:
the 95% status event, `_close_browser`, and the completion log. An
exception escaping the loop skips the tail. -/
def runActionsBody (cfg : PerfConfig) (env : RunEnv) (s : EngState) :
    EngState × LoopExit :=
  let r := actionLoop cfg env.shotOk env.outcomes.length env.interrupt 0
    env.outcomes s
  match r.2 with
  | .normal =>
    let s := r.1.emit (.statusEv "running" 95)
    let s := closeBrowser s
    let s := s.emit (.logEv "info" "complete")
    (s, .normal)
  | .raised b => (r.1, .raised b)

/-- Method `ExecutionEngine._run_actions`: start log and status, register the
wrapper in `browser_contexts` (before `start` is attempted), then either
the real path — browser-start log, initial `_send_screenshot(..., 0)`
(note: `force` is left at its default `False`), the action loop and its
tail — or the browser-start-failure path (error log, simulated fallback,
early `return`). -/
def runActions (cfg : PerfConfig) (env : RunEnv) (s : EngState) :
    EngState × LoopExit :=
  let s := s.emit (.logEv "info" "start")
  let s := s.emit (.statusEv "running" 0)
  let s := { s with inContexts := true }
  if env.startOk then
    let s := s.emit (.logEv "info" "browser_start")
    let s := screenshotStep cfg env.shotOk 0 false s
    runActionsBody cfg env s
  else
    let s := s.emit (.logEv "error" "browser_start")
    let s := s.emit (.logEv "info" "browser_start")
    let s := s.emit (.logEv "info" "browser_start")
    (s, .normal)

/-- Method `ExecutionEngine.execute_task`: starting status, `_run_actions`, then
the completed / cancelled (`asyncio.CancelledError`) / failed
(`Exception`) handlers, and the `finally` block: flush all batched logs,
`_close_browser` again, drop the executing-task record. Returns the final
engine state and the terminal status string. -/
def executeTask (cfg : PerfConfig) (env : RunEnv) : EngState × String :=
  let s0 : EngState := { inContexts := false, closes := 0, flushes := 0, events := [] }
  let s := s0.emit (.statusEv "starting" 0)
  let r := runActions cfg env s
  let s1 : EngState × String :=
    match r.2 with
    | .normal =>
      let s := r.1.emit (.statusEv "completed" 100)
      (s.emit EngEvent.resultEv, "completed")
    | .raised true => (r.1.emit (.statusEv "cancelled" 0), "cancelled")
    | .raised false => (r.1.emit .errorEv, "failed")
  let s := { s1.1 with flushes := s1.1.flushes + 1, events := s1.1.events ++ [EngEvent.flushAllEv] }
  let s := closeBrowser s
  (s, s1.2)

/-- Indices dispatched to the browser worker, in dispatch order. -/
def sentOf (evs : List EngEvent) : List Nat :=
  evs.filterMap fun e =>
    match e with
    | .sentAction i => some i
    | _ => none

def sentActions (s : EngState) : List Nat :=
  sentOf s.events

/-! ## Event distribution and log batching
(`api_service/websocket_manager.py`) -/

/-- One buffered log entry (timestamp and details abstracted). -/
structure LogEntry where
  level : String
  message : String
  actionName : String
deriving DecidableEq, Repr

/-- What reaches subscribers: either one immediately-broadcast
`task_log` message, or one batched `task_log` message carrying a list of
buffered entries. -/
inductive Delivery where
  | immediate (taskId : String) (entry : LogEntry)
  | batch (taskId : String) (entries : List LogEntry)
deriving DecidableEq, Repr

/-- State of `BatchLogManager`: `self.pending_logs` (the `_tasks` debounce
timers only influence when a flush fires, never its content, and are
abstracted into the separate flush operations). -/
structure BatchState where
  pendingLogs : PyDict (List LogEntry)
deriving DecidableEq, Repr

/-- Method `BatchLogManager._flush_logs`: if the task id is absent, return
untouched; otherwise `pop` the buffer, and broadcast it as one batch
message unless it was empty. -/
def flushLogs (bs : BatchState) (taskId : String) :
    BatchState × List Delivery :=
  match bs.pendingLogs.find? taskId with
  | none => (bs, [])
  | some logs =>
    let bs' : BatchState := ⟨bs.pendingLogs.pop taskId⟩
    if logs = [] then (bs', [])
    else (bs', [Delivery.batch taskId logs])

/-- Method `BatchLogManager.add_log`: append the entry to the task's buffer
(creating it if needed); if the buffer has reached `batch_size`, flush
immediately, otherwise (re)arm the debounce timer. -/
def addLog (batchSize : Nat) (bs : BatchState) (taskId : String)
    (e : LogEntry) : BatchState × List Delivery :=
  let cur := (bs.pendingLogs.find? taskId).getD []
  let newLogs := cur ++ [e]
  let bs1 : BatchState := ⟨bs.pendingLogs.set taskId newLogs⟩
  if batchSize ≤ newLogs.length then flushLogs bs1 taskId
  else (bs1, [])

/-- Method `OptimizedConnectionManager.send_task_log`: levels in
`("error", "warning", "success")` are broadcast immediately; anything
else goes through `batch_log_manager.add_log`. -/
def sendTaskLog (batchSize : Nat) (bs : BatchState)
    (taskId level message actionName : String) :
    BatchState × List Delivery :=
  if level = "error" ∨ level = "warning" ∨ level = "success" then
    (bs, [Delivery.immediate taskId ⟨level, message, actionName⟩])
  else addLog batchSize bs taskId ⟨level, message, actionName⟩

/-- Method `BatchLogManager.flush_all`: flush the batch of every currently
buffered task id. -/
def flushAll (bs : BatchState) : BatchState × List Delivery :=
  (bs.pendingLogs.keys).foldl
    (fun acc taskId =>
      let r := flushLogs acc.1 taskId
      (r.1, acc.2 ++ r.2))
    (bs, [])

/-- States reachable through the manager's API: unique buffer keys and no
buffer left empty (`add_log` always appends before releasing the lock,
`_flush_logs` removes the whole buffer). -/
def BatchWF (bs : BatchState) : Prop :=
  bs.pendingLogs.WF ∧ ∀ p ∈ bs.pendingLogs.entries, p.2 ≠ []

/-! ## Invariant predicates and sample data -/

/-- Invariant of spec section 3: no task id is simultaneously a member of the pending
dict and the running dict. -/
def pendingRunningDisjoint (s : SchedulerState) : Prop :=
  ∀ k ∈ s.pendingTasks.keys, s.runningTasks.contains k = false

/-- Admission discipline under which the at-most-one-membership invariant
is preserved: a task is submitted or retried only while its id is not
running, `run_task` is invoked only on tasks handed out by
`get_next_task` (hence no longer pending), and the failure/retry
re-enqueue (`_errback`) is excluded — the counterexample shows it breaks
the invariant. -/
def admissibleOp (s : SchedulerState) (op : SchedOp) : Bool :=
  match op with
  | .add t => !s.runningTasks.contains t.id
  | .run t _ => !s.pendingTasks.contains t.id
  | .retry taskId => !s.runningTasks.contains taskId
  | .errback _ _ => false
  | _ => true

/-- Every operation of the sequence is admissible in the state it runs
from. -/
def admissibleSeq : SchedulerState → List SchedOp → Bool
  | _, [] => true
  | s, op :: rest => admissibleOp s op && admissibleSeq (schedStep s op) rest

/-- Sample tasks for concrete instantiations. -/
def taskA : Task := Task.mkNew "t1" "http://a.example" 1

def taskB : Task := Task.mkNew "t1" "http://b.example" 2

def taskC : Task := Task.mkNew "t2" "http://c.example" 2

def taskD : Task := Task.mkNew "t3" "http://d.example" 2

/-- A sample log entry. -/
def entryInfo : LogEntry := ⟨"info", "m1", "a1"⟩

def entryInfo2 : LogEntry := ⟨"info", "m2", "a2"⟩

/-- A scheduler holding three pending tasks with priorities 1, 2, 2 in
submission order `t1, t2, t3`. -/
def sched3 : SchedulerState :=
  addTask (addTask (addTask (initScheduler 4 3) taskA) taskC) taskD

/-- The state left behind by `get_next_task` on `sched3`. -/
def nextSched3 : SchedulerState := (getNextTask sched3).2

/-- A sample batch-manager state: one task with two buffered entries. -/
def batch1 : BatchState := ⟨⟨[("t1", [entryInfo, entryInfo2])]⟩⟩

/-- A scheduler with `taskA` admitted to the running dict. -/
def schedR : SchedulerState := (runTask (initScheduler 4 3) taskA 5).2

/-- The state reached by submitting `taskA`, scheduling and running it,
and then letting its crawl fail with retries remaining (`_errback`
re-enqueues) before `_on_task_complete` has run. -/
def retryOverlapState : SchedulerState :=
  schedRun (initScheduler 4 3)
    [SchedOp.add taskA, SchedOp.next, SchedOp.run taskA 0,
      SchedOp.errback { taskA with status := TaskStatus.running, startedAt := some 0 } "boom"]

/-- An operation sequence following the admission discipline. -/
def disciplinedOps : List SchedOp :=
  [SchedOp.add taskA, SchedOp.next, SchedOp.run taskA 0, SchedOp.complete "t1"]

/-- The default performance configuration
(`disable_realtime_screenshot = False`, `screenshot_interval = 1`). -/
def perfDefault : PerfConfig := ⟨false, 1⟩

/-- The performance configuration with real-time screenshots disabled. -/
def perfDisabled : PerfConfig := ⟨true, 1⟩

/-- A run whose browser starts, whose first action reports failure and
whose second reports success, with no exception and working captures. -/
def envFailFirst : RunEnv := ⟨true, [(false, false), (true, false)], none, true⟩

/-! ## Dictionary lemmas -/

theorem findEntry_setEntries_self {β : Type} (l : List (String × β))
    (k : String) (v : β) : findEntry (setEntries l k v) k = some v := by
  induction l with
  | nil => simp [setEntries, findEntry]
  | cons hd tl ih =>
    obtain ⟨k', v'⟩ := hd
    by_cases h : k' = k
    · simp [setEntries, findEntry, h]
    · simp [setEntries, findEntry, h, ih]

theorem findEntry_setEntries_ne {β : Type} (l : List (String × β))
    (k k' : String) (v : β) (h : k' ≠ k) :
    findEntry (setEntries l k v) k' = findEntry l k' := by
  have hks : k ≠ k' := fun hh => h hh.symm
  induction l with
  | nil => simp [setEntries, findEntry, hks]
  | cons hd tl ih =>
    obtain ⟨k₀, v₀⟩ := hd
    by_cases h₀ : k₀ = k
    · subst h₀
      simp [setEntries, findEntry, hks]
    · simp only [setEntries, if_neg h₀]
      by_cases h₁ : k₀ = k'
      · simp [findEntry, h₁]
      · simp [findEntry, h₁, ih]

theorem keys_setEntries_of_mem {β : Type} (l : List (String × β))
    (k : String) (v : β) (h : k ∈ l.map Prod.fst) :
    (setEntries l k v).map Prod.fst = l.map Prod.fst := by
  induction l with
  | nil => simp at h
  | cons hd tl ih =>
    obtain ⟨k', v'⟩ := hd
    rw [List.map_cons, List.mem_cons] at h
    by_cases hk : k' = k
    · simp [setEntries, hk]
    · have hmem : k ∈ tl.map Prod.fst := by
        rcases h with h | h
        · exact absurd h.symm hk
        · exact h
      simp [setEntries, hk, ih hmem]

theorem keys_setEntries_of_not_mem {β : Type} (l : List (String × β))
    (k : String) (v : β) (h : k ∉ l.map Prod.fst) :
    (setEntries l k v).map Prod.fst = l.map Prod.fst ++ [k] := by
  induction l with
  | nil => simp [setEntries]
  | cons hd tl ih =>
    obtain ⟨k', v'⟩ := hd
    rw [List.map_cons, List.mem_cons] at h
    push_neg at h
    have hk : k' ≠ k := fun hh => h.1 hh.symm
    simp [setEntries, hk, ih h.2]

theorem length_setEntries_of_mem {β : Type} (l : List (String × β))
    (k : String) (v : β) (h : k ∈ l.map Prod.fst) :
    (setEntries l k v).length = l.length := by
  have := keys_setEntries_of_mem l k v h
  have h1 : ((setEntries l k v).map Prod.fst).length = (l.map Prod.fst).length := by
    rw [this]
  simpa using h1

theorem length_setEntries_of_not_mem {β : Type} (l : List (String × β))
    (k : String) (v : β) (h : k ∉ l.map Prod.fst) :
    (setEntries l k v).length = l.length + 1 := by
  have := keys_setEntries_of_not_mem l k v h
  have h1 : ((setEntries l k v).map Prod.fst).length = (l.map Prod.fst ++ [k]).length := by
    rw [this]
  simpa using h1

theorem length_popEntries_le {β : Type} (l : List (String × β)) (k : String) :
    (popEntries l k).length ≤ l.length := by
  induction l with
  | nil => simp [popEntries]
  | cons hd tl ih =>
    obtain ⟨k', v'⟩ := hd
    by_cases h : k' = k
    · simp only [popEntries, if_pos h, List.length_cons]
      omega
    · simp only [popEntries, if_neg h, List.length_cons]
      omega

theorem popEntries_of_not_mem {β : Type} (l : List (String × β)) (k : String)
    (h : k ∉ l.map Prod.fst) : popEntries l k = l := by
  induction l with
  | nil => simp [popEntries]
  | cons hd tl ih =>
    obtain ⟨k', v'⟩ := hd
    rw [List.map_cons, List.mem_cons] at h
    push_neg at h
    have hk : k' ≠ k := fun hh => h.1 hh.symm
    simp [popEntries, hk, ih h.2]

theorem findEntry_eq_none_of_not_mem {β : Type} (l : List (String × β))
    (k : String) (h : k ∉ l.map Prod.fst) : findEntry l k = none := by
  induction l with
  | nil => simp [findEntry]
  | cons hd tl ih =>
    obtain ⟨k', v'⟩ := hd
    rw [List.map_cons, List.mem_cons] at h
    push_neg at h
    have hk : k' ≠ k := fun hh => h.1 hh.symm
    simp [findEntry, hk, ih h.2]

theorem mem_keys_of_findEntry_isSome {β : Type} (l : List (String × β))
    (k : String) (h : (findEntry l k).isSome) : k ∈ l.map Prod.fst := by
  by_contra hc
  rw [findEntry_eq_none_of_not_mem l k hc] at h
  simp at h

theorem findEntry_isSome_of_mem_keys {β : Type} (l : List (String × β))
    (k : String) (h : k ∈ l.map Prod.fst) : (findEntry l k).isSome := by
  induction l with
  | nil => simp at h
  | cons hd tl ih =>
    obtain ⟨k', v'⟩ := hd
    by_cases hk : k' = k
    · simp [findEntry, hk]
    · simp only [List.map_cons, List.mem_cons] at h
      rcases h with h | h
      · exact absurd h.symm hk
      · simp [findEntry, hk, ih h]

theorem keys_popEntries_sublist {β : Type} (l : List (String × β)) (k : String) :
    ((popEntries l k).map Prod.fst).Sublist (l.map Prod.fst) := by
  induction l with
  | nil => simp [popEntries]
  | cons hd tl ih =>
    obtain ⟨k', v'⟩ := hd
    by_cases h : k' = k
    · simp only [popEntries, if_pos h, List.map_cons]
      exact List.Sublist.cons _ (List.Sublist.refl _)
    · simp only [popEntries, if_neg h, List.map_cons]
      exact List.Sublist.cons₂ _ ih

theorem nodup_keys_setEntries {β : Type} (l : List (String × β)) (k : String)
    (v : β) (h : (l.map Prod.fst).Nodup) :
    ((setEntries l k v).map Prod.fst).Nodup := by
  by_cases hm : k ∈ l.map Prod.fst
  · rw [keys_setEntries_of_mem l k v hm]; exact h
  · rw [keys_setEntries_of_not_mem l k v hm]
    refine h.append (List.nodup_singleton k) ?_
    intro a ha hb
    rw [List.mem_singleton] at hb
    subst hb
    exact hm ha

theorem nodup_keys_popEntries {β : Type} (l : List (String × β)) (k : String)
    (h : (l.map Prod.fst).Nodup) :
    ((popEntries l k).map Prod.fst).Nodup :=
  (keys_popEntries_sublist l k).nodup h

theorem findEntry_popEntries_self {β : Type} (l : List (String × β))
    (k : String) (h : (l.map Prod.fst).Nodup) :
    findEntry (popEntries l k) k = none := by
  induction l with
  | nil => simp [popEntries, findEntry]
  | cons hd tl ih =>
    obtain ⟨k', v'⟩ := hd
    simp only [List.map_cons, List.nodup_cons] at h
    by_cases hk : k' = k
    · subst hk
      simp only [popEntries, if_pos rfl]
      exact findEntry_eq_none_of_not_mem tl k' h.1
    · simp [popEntries, findEntry, hk, ih h.2]

theorem setEntries_of_not_mem {β : Type} (l : List (String × β)) (k : String)
    (v : β) (h : k ∉ l.map Prod.fst) : setEntries l k v = l ++ [(k, v)] := by
  induction l with
  | nil => simp [setEntries]
  | cons hd tl ih =>
    obtain ⟨k', v'⟩ := hd
    rw [List.map_cons, List.mem_cons] at h
    push_neg at h
    have hk : k' ≠ k := fun hh => h.1 hh.symm
    simp [setEntries, hk, ih h.2]

theorem contains_false_iff_not_mem_keys {β : Type} (d : PyDict β)
    (k : String) : d.contains k = false ↔ k ∉ d.keys := by
  constructor
  · intro h hm
    have hs := findEntry_isSome_of_mem_keys d.entries k hm
    rw [PyDict.contains, PyDict.find?] at h
    rw [h] at hs
    simp at hs
  · intro hm
    rw [PyDict.contains, PyDict.find?,
      findEntry_eq_none_of_not_mem d.entries k hm]
    rfl

theorem contains_pop_false {β : Type} (d : PyDict β) (k k' : String)
    (h : d.contains k' = false) : (d.pop k).contains k' = false := by
  rw [contains_false_iff_not_mem_keys] at h ⊢
  intro hm
  exact h ((keys_popEntries_sublist d.entries k).mem hm)

theorem contains_set_ne {β : Type} (d : PyDict β) (k k' : String) (v : β)
    (h : k' ≠ k) : (d.set k v).contains k' = d.contains k' := by
  show (findEntry (setEntries d.entries k v) k').isSome = _
  rw [findEntry_setEntries_ne d.entries k k' v h]
  rfl

theorem mem_keys_setEntries {β : Type} (l : List (String × β))
    (k k' : String) (v : β) (h : k' ∈ (setEntries l k v).map Prod.fst) :
    k' ∈ l.map Prod.fst ∨ k' = k := by
  by_cases hm : k ∈ l.map Prod.fst
  · rw [keys_setEntries_of_mem l k v hm] at h
    exact Or.inl h
  · rw [keys_setEntries_of_not_mem l k v hm] at h
    rcases List.mem_append.mp h with h | h
    · exact Or.inl h
    · exact Or.inr (List.mem_singleton.mp h)

/-! ### Python `max` (left fold) -/

theorem le_foldl_max (l : List Nat) (a : Nat) : a ≤ l.foldl max a := by
  induction l generalizing a with
  | nil => simp
  | cons x xs ih =>
    rw [List.foldl_cons]
    exact le_trans (le_max_left a x) (ih (max a x))

theorem mem_le_foldl_max (l : List Nat) : ∀ a x, x ∈ l → x ≤ l.foldl max a := by
  induction l with
  | nil =>
    intro a x hx
    simp at hx
  | cons y ys ih =>
    intro a x hx
    rw [List.foldl_cons]
    rcases List.mem_cons.mp hx with h | h
    · subst h
      exact le_trans (le_max_right a x) (le_foldl_max ys (max a x))
    · exact ih (max a y) x h

theorem foldl_max_mem (l : List Nat) : ∀ a, l.foldl max a = a ∨ l.foldl max a ∈ l := by
  induction l with
  | nil =>
    intro a
    exact Or.inl rfl
  | cons y ys ih =>
    intro a
    rw [List.foldl_cons]
    rcases ih (max a y) with h | h
    · rw [h]
      rcases Nat.le_total a y with hay | hya
      · right
        rw [max_eq_right hay]
        exact List.mem_cons_self y ys
      · left
        exact max_eq_left hya
    · exact Or.inr (List.mem_cons_of_mem y h)

theorem pyMax_ge (l : List Nat) (x : Nat) (hx : x ∈ l) : x ≤ pyMax l :=
  mem_le_foldl_max l 0 x hx

theorem pyMax_mem (l : List Nat) (h : l ≠ []) : pyMax l ∈ l := by
  rcases foldl_max_mem l 0 with h0 | hm
  · cases l with
    | nil => exact absurd rfl h
    | cons x xs =>
      have hx : x ≤ pyMax (x :: xs) := pyMax_ge _ x (List.mem_cons_self x xs)
      rw [pyMax, h0] at hx
      have hx0 : x = 0 := Nat.le_zero.mp hx
      rw [pyMax, h0, ← hx0]
      exact List.mem_cons_self x xs
  · exact hm

/-! ### `find?` decomposition -/

theorem find?_eq_some_split {α : Type} (p : α → Bool) (l : List α) (a : α)
    (h : l.find? p = some a) :
    p a = true ∧ ∃ pre post, l = pre ++ a :: post ∧ ∀ x ∈ pre, p x = false := by
  induction l with
  | nil => simp [List.find?] at h
  | cons b tl ih =>
    by_cases hp : p b = true
    · rw [List.find?_cons_of_pos _ hp] at h
      obtain rfl : b = a := Option.some.inj h
      exact ⟨hp, [], tl, rfl, by simp⟩
    · rw [List.find?_cons_of_neg _ hp] at h
      obtain ⟨hpa, pre, post, hsplit, hpre⟩ := ih h
      refine ⟨hpa, b :: pre, post, by rw [hsplit, List.cons_append], ?_⟩
      intro x hx
      rcases List.mem_cons.mp hx with hxx | hxx
      · subst hxx
        exact Bool.not_eq_true _ ▸ eq_false_of_ne_true hp
      · exact hpre x hxx

/-! ### Scheduler supporting lemmas -/

/-- On a non-empty pending entry list the selection always succeeds,
picking an entry of maximal priority preceded only by strictly
lower-priority entries. -/
theorem getNextFromEntries_spec (l : List (String × Task)) (hl : l ≠ []) :
    ∃ k t pre post,
      getNextFromEntries l = some (k, t) ∧
      l = pre ++ (k, t) :: post ∧
      (∀ e ∈ l, e.2.priority ≤ t.priority) ∧
      ∀ e ∈ pre, e.2.priority < t.priority := by
  cases l with
  | nil => exact absurd rfl hl
  | cons e es =>
    have hunfold : getNextFromEntries (e :: es) =
        (e :: es).find?
          (fun p => p.2.priority == pyMax ((e :: es).map (fun q => q.2.priority))) := rfl
    have hmem : pyMax ((e :: es).map (fun q => q.2.priority)) ∈
        (e :: es).map (fun q => q.2.priority) :=
      pyMax_mem _ (by simp)
    obtain ⟨x, hx, hxp⟩ := List.mem_map.mp hmem
    cases hfind : (e :: es).find?
        (fun p => p.2.priority == pyMax ((e :: es).map (fun q => q.2.priority))) with
    | none =>
      rw [List.find?_eq_none] at hfind
      exact absurd (by simp [hxp]) (hfind x hx)
    | some kt =>
      obtain ⟨k, t⟩ := kt
      obtain ⟨hpt, pre, post, hsplit, hpre⟩ := find?_eq_some_split _ _ _ hfind
      have ht : t.priority = pyMax ((e :: es).map (fun q => q.2.priority)) := by
        simpa using hpt
      refine ⟨k, t, pre, post, by rw [hunfold, hfind], hsplit, ?_, ?_⟩
      · intro q hq
        rw [ht]
        exact pyMax_ge _ _ (List.mem_map_of_mem _ hq)
      · intro q hq
        have hql : q ∈ e :: es := by
          rw [hsplit]
          exact List.mem_append_left _ hq
        have hle : q.2.priority ≤ t.priority := by
          rw [ht]
          exact pyMax_ge _ _ (List.mem_map_of_mem _ hql)
        have hne : q.2.priority ≠ t.priority := by
          have := hpre q hq
          rw [ht]
          simpa using this
        omega

/-- Fact: `get_next_task` either leaves the state alone or pops one pending
entry; the other collections and the configuration are untouched. -/
theorem getNextTask_snd (s : SchedulerState) :
    (getNextTask s).2 = s ∨
    ∃ k, (getNextTask s).2 = { s with pendingTasks := s.pendingTasks.pop k } := by
  cases h : getNextFromEntries s.pendingTasks.entries with
  | none =>
    left
    simp [getNextTask, h]
  | some kt =>
    obtain ⟨k, t⟩ := kt
    right
    exact ⟨k, by simp [getNextTask, h]⟩

/-- No scheduler operation changes the configured concurrency bound. -/
theorem schedStep_maxConcurrent (s : SchedulerState) (op : SchedOp) :
    (schedStep s op).maxConcurrent = s.maxConcurrent := by
  cases op with
  | add t => rfl
  | next =>
    rcases getNextTask_snd s with h2 | ⟨k, h2⟩ <;>
      · show (getNextTask s).2.maxConcurrent = s.maxConcurrent
        rw [h2]
  | run t now =>
    show (runTask s t now).2.maxConcurrent = s.maxConcurrent
    simp only [runTask]
    split_ifs <;> rfl
  | errback t err =>
    show (execTaskErrback s t err).maxConcurrent = s.maxConcurrent
    simp only [execTaskErrback]
    split_ifs <;> rfl
  | complete taskId =>
    show (onTaskComplete s taskId).maxConcurrent = s.maxConcurrent
    cases hf : s.runningTasks.find? taskId with
    | none => simp only [onTaskComplete, hf]
    | some t =>
      simp only [onTaskComplete, hf]
      split_ifs <;> rfl
  | cancel taskId now =>
    show (cancelTask s taskId now).2.maxConcurrent = s.maxConcurrent
    simp only [cancelTask]
    split_ifs
    · rfl
    · cases s.runningTasks.find? taskId <;> rfl
  | retry taskId =>
    show (retryTask s taskId).2.maxConcurrent = s.maxConcurrent
    simp only [retryTask]
    cases s.failedTasks.find? taskId <;> rfl

/-- Every scheduler operation preserves the concurrency bound on the
running dict. -/
theorem schedStep_size_le (s : SchedulerState) (op : SchedOp)
    (h : s.runningTasks.size ≤ s.maxConcurrent) :
    (schedStep s op).runningTasks.size ≤ s.maxConcurrent := by
  cases op with
  | add t => exact h
  | next =>
    rcases getNextTask_snd s with h2 | ⟨k, h2⟩ <;>
      · show (getNextTask s).2.runningTasks.size ≤ s.maxConcurrent
        rw [h2]
        exact h
  | run t now =>
    show (runTask s t now).2.runningTasks.size ≤ s.maxConcurrent
    simp only [runTask]
    split_ifs with h1 h2
    · exact h
    · exact h
    · have h2f : s.runningTasks.contains t.id = false :=
        eq_false_of_ne_true h2
      have hnm : t.id ∉ s.runningTasks.keys :=
        (contains_false_iff_not_mem_keys _ _).mp h2f
      show (s.runningTasks.set t.id _).size ≤ s.maxConcurrent
      rw [PyDict.size, PyDict.set,
        length_setEntries_of_not_mem s.runningTasks.entries t.id _ hnm]
      have hsz : s.runningTasks.size = s.runningTasks.entries.length := rfl
      omega
  | errback t err =>
    show (execTaskErrback s t err).runningTasks.size ≤ s.maxConcurrent
    simp only [execTaskErrback]
    split_ifs <;> exact h
  | complete taskId =>
    show (onTaskComplete s taskId).runningTasks.size ≤ s.maxConcurrent
    cases hf : s.runningTasks.find? taskId with
    | none =>
      simp only [onTaskComplete, hf]
      exact h
    | some t =>
      have hle : (s.runningTasks.pop taskId).size ≤ s.maxConcurrent :=
        le_trans (length_popEntries_le s.runningTasks.entries taskId) h
      simp only [onTaskComplete, hf]
      split_ifs <;> exact hle
  | cancel taskId now =>
    show (cancelTask s taskId now).2.runningTasks.size ≤ s.maxConcurrent
    simp only [cancelTask]
    split_ifs with h1
    · exact h
    · cases hf : s.runningTasks.find? taskId with
      | none => exact h
      | some t =>
        have hm : taskId ∈ s.runningTasks.keys :=
          mem_keys_of_findEntry_isSome s.runningTasks.entries taskId
            (by rw [show findEntry s.runningTasks.entries taskId =
                s.runningTasks.find? taskId from rfl, hf]; rfl)
        show (s.runningTasks.set taskId _).size ≤ s.maxConcurrent
        rw [PyDict.size, PyDict.set,
          length_setEntries_of_mem s.runningTasks.entries taskId _ hm]
        exact h
  | retry taskId =>
    show (retryTask s taskId).2.runningTasks.size ≤ s.maxConcurrent
    simp only [retryTask]
    cases s.failedTasks.find? taskId <;> exact h

/-- Every admissible scheduler operation preserves the
at-most-one-of-pending-and-running invariant. -/
theorem schedStep_disjoint (s : SchedulerState) (op : SchedOp)
    (hInv : pendingRunningDisjoint s) (hOp : admissibleOp s op = true) :
    pendingRunningDisjoint (schedStep s op) := by
  cases op with
  | add t =>
    have hOp' : s.runningTasks.contains t.id = false := by
      simpa [admissibleOp] using hOp
    intro k hk
    have hk' : k ∈ (setEntries s.pendingTasks.entries t.id t).map Prod.fst := hk
    rcases mem_keys_setEntries _ _ _ _ hk' with hm | rfl
    · exact hInv k hm
    · exact hOp'
  | next =>
    show pendingRunningDisjoint (getNextTask s).2
    rcases getNextTask_snd s with h2 | ⟨p, h2⟩
    · rw [h2]
      exact hInv
    · rw [h2]
      intro k hk
      have hk' : k ∈ (popEntries s.pendingTasks.entries p).map Prod.fst := hk
      exact hInv k ((keys_popEntries_sublist _ _).mem hk')
  | run t now =>
    have hOp' : s.pendingTasks.contains t.id = false := by
      simpa [admissibleOp] using hOp
    show pendingRunningDisjoint (runTask s t now).2
    simp only [runTask]
    split_ifs with h1 h2
    · exact hInv
    · exact hInv
    · intro k hk
      by_cases hkt : k = t.id
      · subst hkt
        exact absurd hk ((contains_false_iff_not_mem_keys _ _).mp hOp')
      · have := contains_set_ne s.runningTasks t.id k
          { t with status := TaskStatus.running, startedAt := some now } hkt
        rw [this]
        exact hInv k hk
  | errback t err => simp [admissibleOp] at hOp
  | complete taskId =>
    show pendingRunningDisjoint (onTaskComplete s taskId)
    cases hf : s.runningTasks.find? taskId with
    | none =>
      simp only [onTaskComplete, hf]
      exact hInv
    | some t =>
      simp only [onTaskComplete, hf]
      split_ifs <;>
        · intro k hk
          exact contains_pop_false _ _ _ (hInv k hk)
  | cancel taskId now =>
    show pendingRunningDisjoint (cancelTask s taskId now).2
    simp only [cancelTask]
    split_ifs with h1
    · intro k hk
      have hk' : k ∈ (popEntries s.pendingTasks.entries taskId).map Prod.fst := hk
      exact hInv k ((keys_popEntries_sublist _ _).mem hk')
    · cases hf : s.runningTasks.find? taskId with
      | none => exact hInv
      | some t =>
        intro k hk
        have hct : s.runningTasks.contains taskId = true := by
          rw [PyDict.contains, hf]
          rfl
        by_cases hkt : k = taskId
        · subst hkt
          rw [hInv k hk] at hct
          exact absurd hct (by simp)
        · have := contains_set_ne s.runningTasks taskId k
            { t with status := TaskStatus.cancelled, completedAt := some now } hkt
          rw [this]
          exact hInv k hk
  | retry taskId =>
    have hOp' : s.runningTasks.contains taskId = false := by
      simpa [admissibleOp] using hOp
    show pendingRunningDisjoint (retryTask s taskId).2
    cases hf : s.failedTasks.find? taskId with
    | none =>
      simp only [retryTask, hf]
      exact hInv
    | some t =>
      simp only [retryTask, hf]
      intro k hk
      rcases mem_keys_setEntries s.pendingTasks.entries taskId k _ hk with hm | rfl
      · exact hInv k hm
      · exact hOp'

/-- The invariant is preserved along any admissible operation sequence. -/
theorem schedRun_disjoint (ops : List SchedOp) :
    ∀ s : SchedulerState, pendingRunningDisjoint s →
      admissibleSeq s ops = true →
      pendingRunningDisjoint (schedRun s ops) := by
  induction ops with
  | nil =>
    intro s hInv _
    exact hInv
  | cons op rest ih =>
    intro s hInv hseq
    rw [admissibleSeq, Bool.and_eq_true] at hseq
    exact ih (schedStep s op) (schedStep_disjoint s op hInv hseq.1) hseq.2

/-- The concurrency bound is a trace invariant. -/
theorem schedRun_size_le (ops : List SchedOp) :
    ∀ s : SchedulerState, s.runningTasks.size ≤ s.maxConcurrent →
      (schedRun s ops).runningTasks.size ≤ s.maxConcurrent := by
  induction ops with
  | nil =>
    intro s h
    exact h
  | cons op rest ih =>
    intro s h
    have hstep := schedStep_size_le s op h
    have hmc := schedStep_maxConcurrent s op
    have := ih (schedStep s op) (by rw [hmc]; exact hstep)
    rw [hmc] at this
    exact this

/-! ### Execution-engine supporting lemmas -/

theorem sentOf_append (l l' : List EngEvent) :
    sentOf (l ++ l') = sentOf l ++ sentOf l' := by
  simp [sentOf, List.filterMap_append]

theorem sentOf_nil : sentOf [] = [] := rfl

theorem sentOf_log (lv an : String) : sentOf [EngEvent.logEv lv an] = [] := rfl

theorem sentOf_status (st : String) (p : Nat) :
    sentOf [EngEvent.statusEv st p] = [] := rfl

theorem sentOf_progress (i t : Nat) :
    sentOf [EngEvent.progressEv i t] = [] := rfl

theorem sentOf_screenshot (i : Nat) :
    sentOf [EngEvent.screenshotEv i] = [] := rfl

theorem sentOf_result : sentOf [EngEvent.resultEv] = [] := rfl

theorem sentOf_error : sentOf [EngEvent.errorEv] = [] := rfl

theorem sentOf_close : sentOf [EngEvent.closeWorker] = [] := rfl

theorem sentOf_flush : sentOf [EngEvent.flushAllEv] = [] := rfl

theorem sentOf_sent (i : Nat) : sentOf [EngEvent.sentAction i] = [i] := rfl

/-- Fact: `_send_screenshot` only ever appends (at most) one screenshot event. -/
theorem screenshotStep_eq (cfg : PerfConfig) (b : Bool) (i : Nat) (f : Bool)
    (s : EngState) :
    screenshotStep cfg b i f s =
      { s with events := s.events ++
          (if sendScreenshot cfg i f b then [EngEvent.screenshotEv i] else []) } := by
  unfold screenshotStep EngState.emit
  split_ifs <;> simp

theorem sentOf_closeBrowser (s : EngState) :
    sentOf (closeBrowser s).events = sentOf s.events := by
  unfold closeBrowser
  split_ifs <;>
    simp [sentOf, EngState.emit, sentOf_append]

theorem closeBrowser_true (s : EngState) (h : s.inContexts = true) :
    (closeBrowser s).closes = s.closes + 1 ∧
    (closeBrowser s).inContexts = false ∧
    (closeBrowser s).flushes = s.flushes := by
  unfold closeBrowser
  rw [if_pos h]
  exact ⟨rfl, rfl, rfl⟩

theorem closeBrowser_false (s : EngState) (h : s.inContexts = false) :
    closeBrowser s = s := by
  unfold closeBrowser
  rw [if_neg (by simp [h])]

/-- One loop iteration only appends events, dispatching exactly its own
action index to the worker; it neither closes nor flushes nor touches the
context registry. -/
theorem actionStep_state (cfg : PerfConfig) (b : Bool) (total idx : Nat)
    (outcome : Bool × Bool) (s : EngState) :
    (actionStep cfg b total idx outcome s).inContexts = s.inContexts ∧
    (actionStep cfg b total idx outcome s).closes = s.closes ∧
    (actionStep cfg b total idx outcome s).flushes = s.flushes ∧
    sentOf (actionStep cfg b total idx outcome s).events =
      sentOf s.events ++ [idx] := by
  obtain ⟨suc, hasDict⟩ := outcome
  unfold actionStep
  rw [screenshotStep_eq]
  cases suc <;> cases hasDict <;>
    · refine ⟨rfl, rfl, rfl, ?_⟩
      split_ifs <;>
        simp [sentOf, EngState.emit, sentOf_append]

/-- The loop, for any interrupt, never closes or flushes and never
touches the context registry. -/
theorem actionLoop_preserve (cfg : PerfConfig) (b : Bool) (total : Nat)
    (intr : Option (Nat × Bool)) (outcomes : List (Bool × Bool)) :
    ∀ (idx : Nat) (s : EngState),
      (actionLoop cfg b total intr idx outcomes s).1.inContexts = s.inContexts ∧
      (actionLoop cfg b total intr idx outcomes s).1.closes = s.closes ∧
      (actionLoop cfg b total intr idx outcomes s).1.flushes = s.flushes := by
  induction outcomes with
  | nil =>
    intro idx s
    exact ⟨rfl, rfl, rfl⟩
  | cons o rest ih =>
    intro idx s
    unfold actionLoop
    cases intr with
    | none =>
      obtain ⟨h1, h2, h3, _⟩ := actionStep_state cfg b total idx o s
      obtain ⟨g1, g2, g3⟩ := ih (idx + 1) (actionStep cfg b total idx o s)
      exact ⟨g1.trans h1, g2.trans h2, g3.trans h3⟩
    | some kb =>
      obtain ⟨k, isC⟩ := kb
      dsimp only
      by_cases hk : k = idx
      · rw [if_pos hk]
        exact ⟨rfl, rfl, rfl⟩
      · rw [if_neg hk]
        obtain ⟨h1, h2, h3, _⟩ := actionStep_state cfg b total idx o s
        obtain ⟨g1, g2, g3⟩ := ih (idx + 1) (actionStep cfg b total idx o s)
        exact ⟨g1.trans h1, g2.trans h2, g3.trans h3⟩

/-- With no injected exception the loop exits normally after dispatching
every action index once, in order. -/
theorem actionLoop_none (cfg : PerfConfig) (b : Bool) (total : Nat)
    (outcomes : List (Bool × Bool)) :
    ∀ (idx : Nat) (s : EngState),
      (actionLoop cfg b total none idx outcomes s).2 = LoopExit.normal ∧
      sentOf (actionLoop cfg b total none idx outcomes s).1.events =
        sentOf s.events ++ List.range' idx outcomes.length := by
  induction outcomes with
  | nil =>
    intro idx s
    refine ⟨rfl, ?_⟩
    show sentOf s.events = sentOf s.events ++ List.range' idx 0
    simp [List.range']
  | cons o rest ih =>
    intro idx s
    unfold actionLoop
    obtain ⟨h1, h2⟩ := ih (idx + 1) (actionStep cfg b total idx o s)
    obtain ⟨_, _, _, h4⟩ := actionStep_state cfg b total idx o s
    refine ⟨h1, ?_⟩
    rw [h2, h4]
    have hr : List.range' idx (rest.length + 1) =
        idx :: List.range' (idx + 1) rest.length := rfl
    rw [List.length_cons, hr]
    simp

/-- The loop-plus-tail either exits normally having closed the session
(when entered with the context registered) or propagates the exception
with the context still registered; it flushes nothing itself. -/
theorem runActionsBody_state (cfg : PerfConfig) (env : RunEnv)
    (B : EngState) (hB : B.inContexts = true) :
    (runActionsBody cfg env B).1.flushes = B.flushes ∧
    (((runActionsBody cfg env B).1.inContexts = false ∧
      (runActionsBody cfg env B).1.closes = B.closes + 1) ∨
     ((runActionsBody cfg env B).1.inContexts = true ∧
      (runActionsBody cfg env B).1.closes = B.closes)) := by
  obtain ⟨p1, p2, p3⟩ := actionLoop_preserve cfg env.shotOk
    env.outcomes.length env.interrupt env.outcomes 0 B
  simp only [runActionsBody]
  rcases hexit : (actionLoop cfg env.shotOk env.outcomes.length env.interrupt 0
      env.outcomes B).2 with _ | b
  · have hX : ((actionLoop cfg env.shotOk env.outcomes.length env.interrupt 0
        env.outcomes B).1.emit (EngEvent.statusEv "running" 95)).inContexts = true :=
      p1.trans hB
    obtain ⟨c1, c2, c3⟩ := closeBrowser_true _ hX
    exact ⟨c3.trans p3, Or.inl ⟨c2, c1.trans (congrArg (fun n => n + 1) p2)⟩⟩
  · exact ⟨p3, Or.inr ⟨p1.trans hB, p2⟩⟩

/-- Fact: `_run_actions` never flushes; on exit, either the session was closed
once and the context deregistered (normal exit of the real path), or the
context is still registered and nothing was closed (start failure or an
escaping exception). -/
theorem runActions_state (cfg : PerfConfig) (env : RunEnv) (s : EngState) :
    (runActions cfg env s).1.flushes = s.flushes ∧
    (((runActions cfg env s).1.inContexts = false ∧
      (runActions cfg env s).1.closes = s.closes + 1) ∨
     ((runActions cfg env s).1.inContexts = true ∧
      (runActions cfg env s).1.closes = s.closes)) := by
  simp only [runActions]
  by_cases hst : env.startOk = true
  · rw [if_pos hst, screenshotStep_eq]
    exact runActionsBody_state cfg env _ rfl
  · rw [if_neg hst]
    exact ⟨rfl, Or.inr ⟨rfl, rfl⟩⟩

theorem sentOf_screenshot_ite (c : Prop) [Decidable c] (i : Nat) :
    sentOf (if c then [EngEvent.screenshotEv i] else []) = [] := by
  split_ifs <;> rfl

/-- With no injected exception the loop-plus-tail exits normally,
dispatching indices `0..N-1` once each, in order. -/
theorem runActionsBody_none (cfg : PerfConfig) (env : RunEnv)
    (hi : env.interrupt = none) (B : EngState) :
    (runActionsBody cfg env B).2 = LoopExit.normal ∧
    sentOf (runActionsBody cfg env B).1.events =
      sentOf B.events ++ List.range' 0 env.outcomes.length := by
  obtain ⟨h1, h2⟩ := actionLoop_none cfg env.shotOk env.outcomes.length
    env.outcomes 0 B
  simp only [runActionsBody, hi]
  rw [h1]
  refine ⟨rfl, ?_⟩
  simp [EngState.emit, sentOf_append, sentOf_closeBrowser, h2, sentOf_status,
    sentOf_log]

/-- A started, uninterrupted `_run_actions` exits normally and dispatches
exactly the indices `0..N-1`. -/
theorem runActions_completed (cfg : PerfConfig) (env : RunEnv)
    (hst : env.startOk = true) (hi : env.interrupt = none) (s : EngState) :
    (runActions cfg env s).2 = LoopExit.normal ∧
    sentOf (runActions cfg env s).1.events =
      sentOf s.events ++ List.range' 0 env.outcomes.length := by
  simp only [runActions]
  rw [if_pos hst, screenshotStep_eq]
  refine ⟨(runActionsBody_none cfg env hi _).1, ?_⟩
  rw [(runActionsBody_none cfg env hi _).2]
  simp [EngState.emit, sentOf_append, sentOf_status, sentOf_log,
    sentOf_screenshot_ite]
  split_ifs <;> rfl

/-- Everything the `finally` block's `_close_browser` guarantees, given
what the earlier phases established. -/
theorem finallyBlock (F : EngState)
    (hc : (F.inContexts = false ∧ F.closes = 1) ∨
          (F.inContexts = true ∧ F.closes = 0))
    (hfl : F.flushes = 1) :
    (closeBrowser F).closes = 1 ∧ (closeBrowser F).flushes = 1 := by
  rcases hc with ⟨hin, hcl⟩ | ⟨hin, hcl⟩
  · rw [closeBrowser_false F hin]
    exact ⟨hcl, hfl⟩
  · obtain ⟨c1, c2, c3⟩ := closeBrowser_true F hin
    exact ⟨by rw [c1, hcl], by rw [c3, hfl]⟩

/-! ### Batch-log supporting lemmas -/

theorem findEntry_mem {β : Type} (l : List (String × β)) (k : String) (v : β)
    (h : findEntry l k = some v) : (k, v) ∈ l := by
  induction l with
  | nil => simp [findEntry] at h
  | cons hd tl ih =>
    obtain ⟨k', v'⟩ := hd
    by_cases hk : k' = k
    · subst hk
      rw [findEntry, if_pos rfl] at h
      obtain rfl := Option.some.inj h
      exact List.mem_cons_self _ _
    · rw [findEntry, if_neg hk] at h
      exact List.mem_cons_of_mem _ (ih h)

theorem flushLogs_absent (bs : BatchState) (tid : String)
    (h : bs.pendingLogs.find? tid = none) : flushLogs bs tid = (bs, []) := by
  simp [flushLogs, h]

theorem flushLogs_present (bs : BatchState) (tid : String)
    (logs : List LogEntry) (h : bs.pendingLogs.find? tid = some logs)
    (hne : logs ≠ []) :
    flushLogs bs tid = (⟨bs.pendingLogs.pop tid⟩, [Delivery.batch tid logs]) := by
  simp [flushLogs, h, hne]

/-- In well-formed manager states every stored buffer is non-empty. -/
theorem BatchWF_nonempty (bs : BatchState) (hwf : BatchWF bs) (tid : String)
    (logs : List LogEntry) (h : bs.pendingLogs.find? tid = some logs) :
    logs ≠ [] :=
  hwf.2 (tid, logs) (findEntry_mem _ _ _ h)

/-- The fold inside `flush_all`, over the whole (well-formed) entry list:
it empties the dict and emits one batch per buffered task, in order. -/
theorem flushAll_fold (l : List (String × List LogEntry)) :
    ∀ (acc : List Delivery), (l.map Prod.fst).Nodup → (∀ p ∈ l, p.2 ≠ []) →
      (l.map Prod.fst).foldl
        (fun acc2 tid =>
          let r := flushLogs acc2.1 tid
          (r.1, acc2.2 ++ r.2))
        ((⟨⟨l⟩⟩ : BatchState), acc) =
      ((⟨⟨[]⟩⟩ : BatchState),
        acc ++ l.map (fun p => Delivery.batch p.1 p.2)) := by
  induction l with
  | nil =>
    intro acc _ _
    simp
  | cons e rest ih =>
    obtain ⟨k, v⟩ := e
    intro acc hnd hne
    rw [List.map_cons, List.nodup_cons] at hnd
    have hv : v ≠ [] := hne (k, v) (List.mem_cons_self _ _)
    have hfind : (⟨⟨(k, v) :: rest⟩⟩ : BatchState).pendingLogs.find? k = some v := by
      show findEntry ((k, v) :: rest) k = some v
      rw [findEntry, if_pos rfl]
    have hpop : (⟨⟨(k, v) :: rest⟩⟩ : BatchState).pendingLogs.pop k = ⟨rest⟩ := by
      show (⟨popEntries ((k, v) :: rest) k⟩ : PyDict (List LogEntry)) = ⟨rest⟩
      rw [popEntries, if_pos rfl]
    rw [List.map_cons, List.foldl_cons]
    dsimp only
    rw [flushLogs_present _ _ _ hfind hv, hpop]
    dsimp only
    rw [ih (acc ++ [Delivery.batch k v]) hnd.2
      (fun p hp => hne p (List.mem_cons_of_mem _ hp))]
    simp

/-! ## Claim theorems -/

/-- C2: on an empty pending dict `get_next_task` returns `None` and
leaves the state unchanged; on a non-empty one it succeeds, and the
returned task sits at a pending position whose priority is maximal among
all pending tasks while every earlier-submitted (earlier-inserted) entry
has strictly lower priority — so among equal highest priorities the
earliest submission wins — and exactly that entry is popped from the
pending dict. -/
theorem next_returns_highest_priority_fifo (s : SchedulerState) :
    (s.pendingTasks.entries = [] → getNextTask s = (none, s)) ∧
    (s.pendingTasks.entries ≠ [] → (getNextTask s).1.isSome = true) ∧
    (∀ t s', getNextTask s = (some t, s') →
      ∃ k pre post,
        s.pendingTasks.entries = pre ++ (k, t) :: post ∧
        (∀ e ∈ s.pendingTasks.entries, e.2.priority ≤ t.priority) ∧
        (∀ e ∈ pre, e.2.priority < t.priority) ∧
        s' = { s with pendingTasks := s.pendingTasks.pop k }) := by
  refine ⟨?_, ?_, ?_⟩
  · intro h
    have hg : getNextFromEntries s.pendingTasks.entries = none := by
      rw [h]
      rfl
    simp [getNextTask, hg]
  · intro h
    obtain ⟨k, t, pre, post, hg, _, _, _⟩ := getNextFromEntries_spec _ h
    simp [getNextTask, hg]
  · intro t s' heq
    by_cases h : s.pendingTasks.entries = []
    · have hg : getNextFromEntries s.pendingTasks.entries = none := by
        rw [h]
        rfl
      simp [getNextTask, hg] at heq
    · obtain ⟨k, t0, pre, post, hg, hsplit, hmax, hpre⟩ :=
        getNextFromEntries_spec _ h
      simp only [getNextTask, hg, Prod.mk.injEq, Option.some.injEq] at heq
      obtain ⟨rfl, rfl⟩ := heq
      exact ⟨k, pre, post, hsplit, hmax, hpre, rfl⟩

/-- C2 witness: on the empty scheduler `next` yields `None`; on three
pending tasks with priorities 1, 2, 2 it succeeds and the decomposition
exists (the selected entry is `t2`, the earliest of the two
priority-2 submissions). -/
theorem next_returns_highest_priority_fifo_witness :
    getNextTask (initScheduler 4 3) = (none, initScheduler 4 3) ∧
    (getNextTask sched3).1.isSome = true ∧
    ∃ k pre post,
      sched3.pendingTasks.entries = pre ++ (k, taskC) :: post ∧
      (∀ e ∈ sched3.pendingTasks.entries, e.2.priority ≤ taskC.priority) ∧
      (∀ e ∈ pre, e.2.priority < taskC.priority) ∧
      nextSched3 = { sched3 with pendingTasks := sched3.pendingTasks.pop k } :=
  ⟨(next_returns_highest_priority_fifo (initScheduler 4 3)).1 rfl,
    (next_returns_highest_priority_fifo sched3).2.1 (by decide),
    (next_returns_highest_priority_fifo sched3).2.2 taskC nextSched3 (by decide)⟩

/-- C3: `run_task` returns `false` and leaves the state unchanged when
the running dict is at the concurrency bound or the task id is already
running; otherwise it returns `true`, marking the task RUNNING with a
recorded start timestamp inside the running dict; and over every
operation sequence from a fresh scheduler the running-dict size never
exceeds the configured bound. -/
theorem run_task_respects_concurrency_bound :
    (∀ (s : SchedulerState) (t : Task) (now : Nat),
      s.maxConcurrent ≤ s.runningTasks.size → runTask s t now = (false, s)) ∧
    (∀ (s : SchedulerState) (t : Task) (now : Nat),
      s.runningTasks.contains t.id = true → runTask s t now = (false, s)) ∧
    (∀ (s : SchedulerState) (t : Task) (now : Nat),
      s.runningTasks.size < s.maxConcurrent →
      s.runningTasks.contains t.id = false →
      runTask s t now = (true, { s with runningTasks := s.runningTasks.set t.id ({ t with status := TaskStatus.running, startedAt := some now }) })) ∧
    (∀ (mc mr : Nat) (ops : List SchedOp),
      (schedRun (initScheduler mc mr) ops).runningTasks.size ≤ mc) := by
  refine ⟨?_, ?_, ?_, ?_⟩
  · intro s t now h
    simp [runTask, h]
  · intro s t now h
    simp [runTask, h]
  · intro s t now h1 h2
    simp only [runTask, h2]
    rw [if_neg (by omega : ¬ s.maxConcurrent ≤ s.runningTasks.size)]
    simp
  · intro mc mr ops
    exact schedRun_size_le ops (initScheduler mc mr) (Nat.zero_le mc)

/-- C3 witness: the three `run_task` contracts exercised on concrete
states (bound 0, duplicate id, admission) plus the bound after one
operation. -/
theorem run_task_respects_concurrency_bound_witness :
    runTask (initScheduler 0 3) taskA 0 = (false, initScheduler 0 3) ∧
    runTask schedR taskA 6 = (false, schedR) ∧
    runTask (initScheduler 4 3) taskA 5 =
      (true, { initScheduler 4 3 with runningTasks := (initScheduler 4 3).runningTasks.set taskA.id ({ taskA with status := TaskStatus.running, startedAt := some 5 }) }) ∧
    (schedRun (initScheduler 4 3) [SchedOp.add taskA]).runningTasks.size ≤ 4 :=
  ⟨run_task_respects_concurrency_bound.1 (initScheduler 0 3) taskA 0 (by decide),
    run_task_respects_concurrency_bound.2.1 schedR taskA 6 (by decide),
    run_task_respects_concurrency_bound.2.2.1 (initScheduler 4 3) taskA 5
      (by decide) (by decide),
    run_task_respects_concurrency_bound.2.2.2 4 3 [SchedOp.add taskA]⟩

/-- C4 counterexample: submit, schedule and run `t1`, then let its crawl
fail with retries remaining; `_errback` re-enqueues it into
`pending_tasks` while `_on_task_complete` has not yet removed it from
`running_tasks`, so the id is a member of both dicts at once. -/
theorem pending_and_running_overlap_on_retry :
    retryOverlapState.pendingTasks.contains "t1" = true ∧
    retryOverlapState.runningTasks.contains "t1" = true := by
  decide

/-- C4 amended: under the admission discipline — `submit`/`retry` only
for ids not currently running, `run` only for tasks handed out by
`next`, and no `_errback` re-enqueue pending — every reachable state
keeps each task id in at most one of the pending and running dicts; the
errback retry path violates this (see the counterexample), with the
overlap lasting until `_on_task_complete` removes the id from running. -/
theorem pending_running_disjoint_under_admission (mc mr : Nat)
    (ops : List SchedOp)
    (h : admissibleSeq (initScheduler mc mr) ops = true) :
    pendingRunningDisjoint (schedRun (initScheduler mc mr) ops) := by
  refine schedRun_disjoint ops (initScheduler mc mr) ?_ h
  intro k hk
  simp [initScheduler, PyDict.empty, PyDict.keys] at hk

/-- C4 witness: a disciplined submit/next/run/complete sequence is
admissible and ends (and stays) with disjoint pending/running sets. -/
theorem pending_running_disjoint_under_admission_witness :
    admissibleSeq (initScheduler 4 3) disciplinedOps = true ∧
    pendingRunningDisjoint (schedRun (initScheduler 4 3) disciplinedOps) :=
  ⟨by decide, pending_running_disjoint_under_admission 4 3 disciplinedOps (by decide)⟩

/-- C6 counterexample: submitting a second task with the pending id `t1`
is not a no-op — the stored task object is replaced by the new one. -/
theorem submit_duplicate_overwrites :
    (addTask (addTask (initScheduler 4 3) taskA) taskB).pendingTasks.find? "t1" =
      some taskB ∧ taskB ≠ taskA := by
  constructor
  · decide
  · decide

/-- C6 amended: `add_task` stores the task under its id — appending a new
entry when the id is not pending; when the id is already pending the key
set and its insertion order are unchanged but the stored task object is
replaced by the newly submitted one. The other collections are
untouched. -/
theorem submit_stores_task_under_id (s : SchedulerState) (t : Task) :
    (s.pendingTasks.contains t.id = false →
      (addTask s t).pendingTasks.entries =
        s.pendingTasks.entries ++ [(t.id, t)]) ∧
    (s.pendingTasks.contains t.id = true →
      (addTask s t).pendingTasks.keys = s.pendingTasks.keys) ∧
    (addTask s t).pendingTasks.find? t.id = some t ∧
    (addTask s t).runningTasks = s.runningTasks := by
  refine ⟨?_, ?_, ?_, rfl⟩
  · intro h
    exact setEntries_of_not_mem _ _ _
      ((contains_false_iff_not_mem_keys _ _).mp h)
  · intro h
    have hm : t.id ∈ s.pendingTasks.keys := by
      by_contra hc
      have hfalse := (contains_false_iff_not_mem_keys _ _).mpr hc
      rw [hfalse] at h
      simp at h
    exact keys_setEntries_of_mem _ _ _ hm
  · exact findEntry_setEntries_self _ _ _

/-- C6 witness: a fresh submission appends; a duplicate submission keeps
the key list. -/
theorem submit_stores_task_under_id_witness :
    (addTask (initScheduler 4 3) taskA).pendingTasks.entries =
      (initScheduler 4 3).pendingTasks.entries ++ [(taskA.id, taskA)] ∧
    (addTask (addTask (initScheduler 4 3) taskA) taskB).pendingTasks.keys =
      (addTask (initScheduler 4 3) taskA).pendingTasks.keys :=
  ⟨(submit_stores_task_under_id (initScheduler 4 3) taskA).1 (by decide),
    (submit_stores_task_under_id (addTask (initScheduler 4 3) taskA) taskB).2.1
      (by decide)⟩

/-- C10: `get_statistics` is total on every scheduler state: it reports
the four collection sizes and the configured bound, utilization is `0`
when `max_concurrent == 0` (the guarded branch, so the division by zero
is never taken) and otherwise satisfies
`utilization * max_concurrent = running_count`. -/
theorem get_statistics_total (s : SchedulerState) :
    (getStatistics s).pendingCount = s.pendingTasks.size ∧
    (getStatistics s).runningCount = s.runningTasks.size ∧
    (getStatistics s).completedCount = s.completedTasks.size ∧
    (getStatistics s).failedCount = s.failedTasks.size ∧
    (getStatistics s).maxConcurrentStat = s.maxConcurrent ∧
    (s.maxConcurrent = 0 → (getStatistics s).utilization = 0) ∧
    (0 < s.maxConcurrent →
      (getStatistics s).utilization * (s.maxConcurrent : ℚ) =
        (s.runningTasks.size : ℚ)) := by
  refine ⟨rfl, rfl, rfl, rfl, rfl, ?_, ?_⟩
  · intro h
    simp [getStatistics, h]
  · intro h
    have hne : (s.maxConcurrent : ℚ) ≠ 0 := by
      exact_mod_cast Nat.pos_iff_ne_zero.mp h
    simp only [getStatistics, if_pos h]
    exact div_mul_cancel₀ _ hne

/-- C10 witness: a zero-capacity scheduler reports utilization 0; a
scheduler with one running task out of four satisfies the product
identity. -/
theorem get_statistics_total_witness :
    (getStatistics (initScheduler 0 3)).utilization = 0 ∧
    (getStatistics schedR).utilization * ((schedR.maxConcurrent : ℚ)) =
      (schedR.runningTasks.size : ℚ) :=
  ⟨(get_statistics_total (initScheduler 0 3)).2.2.2.2.2.1 rfl,
    (get_statistics_total schedR).2.2.2.2.2.2 (by decide)⟩

/-- C1 counterexample: a two-action run whose first action reports
failure still dispatches both actions (indices 0 and 1) to the browser
worker and ends COMPLETED — the loop logs "操作失败: …，跳过" (skipped)
and continues, so no fail-fast abort and no FAILED transition occur. -/
theorem fail_fast_counterexample :
    sentOf (executeTask perfDefault envFailFirst).1.events = [0, 1] ∧
    (executeTask perfDefault envFailFirst).2 = "completed" ∧
    ¬ (executeTask perfDefault envFailFirst).2 = "failed" := by
  refine ⟨?_, ?_, ?_⟩ <;> decide

/-- C1 amended: when the browser starts and no exception escapes the
loop, every action is dispatched to the worker exactly once, in order
(`0..N-1`), regardless of which actions report failure — a failing
action is logged with a warning and skipped, not aborted on — and the
task always transitions to COMPLETED. -/
theorem engine_skips_failed_actions_and_completes (cfg : PerfConfig)
    (outcomes : List (Bool × Bool)) (shot : Bool) :
    sentOf (executeTask cfg ⟨true, outcomes, none, shot⟩).1.events =
      List.range' 0 outcomes.length ∧
    (executeTask cfg ⟨true, outcomes, none, shot⟩).2 = "completed" := by
  obtain ⟨h1, h2⟩ := runActions_completed cfg ⟨true, outcomes, none, shot⟩
    rfl rfl (EngState.emit ⟨false, 0, 0, []⟩ (EngEvent.statusEv "starting" 0))
  simp only [executeTask]
  rw [h1]
  refine ⟨?_, rfl⟩
  simp only [EngState.emit, List.nil_append] at h2
  rw [sentOf_closeBrowser]
  dsimp only [EngState.emit, List.nil_append]
  simp only [sentOf_append, h2]
  simp [sentOf]

/-- C5: on every modelled path of `execute_task` — normal completion,
browser-start failure with simulated fallback, an exception or
cancellation escaping the action loop at any index — the task reaches a
terminal state, the worker session is closed exactly once
(close-count == 1, never 0 or more), and the batched logs are flushed
(one `flush_all`, in the `finally` block). -/
theorem worker_session_closed_exactly_once (cfg : PerfConfig)
    (env : RunEnv) :
    (executeTask cfg env).1.closes = 1 ∧
    (executeTask cfg env).1.flushes = 1 ∧
    ((executeTask cfg env).2 = "completed" ∨
      (executeTask cfg env).2 = "cancelled" ∨
      (executeTask cfg env).2 = "failed") := by
  obtain ⟨hf, hc⟩ := runActions_state cfg env
    (EngState.emit ⟨false, 0, 0, []⟩ (EngEvent.statusEv "starting" 0))
  simp only [executeTask]
  rcases hexit : (runActions cfg env
      (EngState.emit ⟨false, 0, 0, []⟩ (EngEvent.statusEv "starting" 0))).2
    with _ | b
  · rcases hc with ⟨hin, hcl⟩ | ⟨hin, hcl⟩
    · refine ⟨(finallyBlock _ ?_ ?_).1, (finallyBlock _ ?_ ?_).2, Or.inl rfl⟩
      · exact Or.inl ⟨hin, hcl⟩
      · exact congrArg (fun n => n + 1) hf
      · exact Or.inl ⟨hin, hcl⟩
      · exact congrArg (fun n => n + 1) hf
    · refine ⟨(finallyBlock _ ?_ ?_).1, (finallyBlock _ ?_ ?_).2, Or.inl rfl⟩
      · exact Or.inr ⟨hin, hcl⟩
      · exact congrArg (fun n => n + 1) hf
      · exact Or.inr ⟨hin, hcl⟩
      · exact congrArg (fun n => n + 1) hf
  · cases b
    · rcases hc with ⟨hin, hcl⟩ | ⟨hin, hcl⟩
      · refine ⟨(finallyBlock _ ?_ ?_).1, (finallyBlock _ ?_ ?_).2, Or.inr (Or.inr rfl)⟩
        · exact Or.inl ⟨hin, hcl⟩
        · exact congrArg (fun n => n + 1) hf
        · exact Or.inl ⟨hin, hcl⟩
        · exact congrArg (fun n => n + 1) hf
      · refine ⟨(finallyBlock _ ?_ ?_).1, (finallyBlock _ ?_ ?_).2, Or.inr (Or.inr rfl)⟩
        · exact Or.inr ⟨hin, hcl⟩
        · exact congrArg (fun n => n + 1) hf
        · exact Or.inr ⟨hin, hcl⟩
        · exact congrArg (fun n => n + 1) hf
    · rcases hc with ⟨hin, hcl⟩ | ⟨hin, hcl⟩
      · refine ⟨(finallyBlock _ ?_ ?_).1, (finallyBlock _ ?_ ?_).2, Or.inr (Or.inl rfl)⟩
        · exact Or.inl ⟨hin, hcl⟩
        · exact congrArg (fun n => n + 1) hf
        · exact Or.inl ⟨hin, hcl⟩
        · exact congrArg (fun n => n + 1) hf
      · refine ⟨(finallyBlock _ ?_ ?_).1, (finallyBlock _ ?_ ?_).2, Or.inr (Or.inl rfl)⟩
        · exact Or.inr ⟨hin, hcl⟩
        · exact congrArg (fun n => n + 1) hf
        · exact Or.inr ⟨hin, hcl⟩
        · exact congrArg (fun n => n + 1) hf

/-- C7 counterexample: the engine's initial frame
(`_send_screenshot(task_id, wrapper, 0)`, `force` defaulting to `False`)
is suppressed when real-time screenshots are disabled, even with a
working capture — the claim's "emitted unconditionally, even when
screenshots are disabled" fails at index 0. -/
theorem initial_screenshot_suppressed_when_disabled :
    sendScreenshot perfDisabled 0 false true = false := by decide

/-- C7 amended: a screenshot is emitted iff the capture yields bytes and
(the call is forced, or: screenshots are not disabled, the interval is
non-zero — a zero interval makes the Python modulo raise, swallowed as
no-emit — and `index mod interval == 0`). Index 0 passes the stride
check automatically but enjoys no other privilege: the engine's initial
frame uses `force=False`, so only forced captures bypass the disable
switch. -/
theorem screenshot_emission_policy (cfg : PerfConfig) (idx : Nat)
    (force shotOk : Bool) :
    sendScreenshot cfg idx force shotOk =
      (shotOk && (force || (!cfg.disableRealtimeScreenshot &&
        (cfg.screenshotInterval != 0) &&
        (idx % cfg.screenshotInterval == 0)))) := by
  obtain ⟨d, i⟩ := cfg
  unfold sendScreenshot
  cases d <;> cases force <;> cases shotOk <;>
    by_cases hi : i = 0 <;>
      by_cases hm : idx % i = 0 <;>
        simp [hi, hm]

/-- C8: `send_task_log` broadcasts a log entry immediately, bypassing the
batch buffer, exactly when its level is `error`, `warning` or `success`;
any other level is appended to the task's batch buffer — yielding no
immediate delivery — and either just sits there (below the size
threshold) or triggers a batch flush carrying the whole buffer, the new
entry included. -/
theorem high_severity_bypasses_batching (bs : BatchState) (bsz : Nat)
    (tid level msg an : String) :
    ((level = "error" ∨ level = "warning" ∨ level = "success") →
      sendTaskLog bsz bs tid level msg an =
        (bs, [Delivery.immediate tid ⟨level, msg, an⟩])) ∧
    (¬(level = "error" ∨ level = "warning" ∨ level = "success") →
      (∀ d ∈ (sendTaskLog bsz bs tid level msg an).2, ∀ t e,
        d ≠ Delivery.immediate t e) ∧
      (((bs.pendingLogs.find? tid).getD [] ++ [(⟨level, msg, an⟩ : LogEntry)]).length < bsz →
        sendTaskLog bsz bs tid level msg an =
          (⟨bs.pendingLogs.set tid
            ((bs.pendingLogs.find? tid).getD [] ++ [⟨level, msg, an⟩])⟩, [])) ∧
      (bsz ≤ ((bs.pendingLogs.find? tid).getD [] ++ [(⟨level, msg, an⟩ : LogEntry)]).length →
        sendTaskLog bsz bs tid level msg an =
          (⟨(bs.pendingLogs.set tid
              ((bs.pendingLogs.find? tid).getD [] ++ [⟨level, msg, an⟩])).pop tid⟩,
            [Delivery.batch tid
              ((bs.pendingLogs.find? tid).getD [] ++ [⟨level, msg, an⟩])]))) := by
  constructor
  · intro h
    simp [sendTaskLog, h]
  · intro h
    have hsend : sendTaskLog bsz bs tid level msg an =
        addLog bsz bs tid ⟨level, msg, an⟩ := by
      simp [sendTaskLog, h]
    have hfind : (⟨bs.pendingLogs.set tid
        ((bs.pendingLogs.find? tid).getD [] ++ [(⟨level, msg, an⟩ : LogEntry)])⟩ :
          BatchState).pendingLogs.find? tid =
        some ((bs.pendingLogs.find? tid).getD [] ++ [⟨level, msg, an⟩]) :=
      findEntry_setEntries_self _ _ _
    refine ⟨?_, ?_, ?_⟩
    · intro d hd t e
      rw [hsend] at hd
      by_cases hb : bsz ≤ ((bs.pendingLogs.find? tid).getD [] ++
          [(⟨level, msg, an⟩ : LogEntry)]).length
      · rw [addLog, if_pos hb,
          flushLogs_present _ _ _ hfind (by simp)] at hd
        simp at hd
        rw [hd]
        intro hcon
        cases hcon
      · rw [addLog, if_neg hb] at hd
        simp at hd
    · intro hlt
      rw [hsend, addLog, if_neg (by omega)]
    · intro hge
      rw [hsend, addLog, if_pos hge, flushLogs_present _ _ _ hfind (by simp)]

/-- C8 witness: a `warning` entry is delivered immediately and untouched
buffers; an `info` entry yields no immediate delivery and is appended to
the task's buffer (threshold not reached). -/
theorem high_severity_bypasses_batching_witness :
    sendTaskLog 10 batch1 "t1" "warning" "m3" "a3" =
      (batch1, [Delivery.immediate "t1" ⟨"warning", "m3", "a3"⟩]) ∧
    (∀ d ∈ (sendTaskLog 10 batch1 "t1" "info" "m3" "a3").2, ∀ t e,
      d ≠ Delivery.immediate t e) ∧
    sendTaskLog 10 batch1 "t1" "info" "m3" "a3" =
      (⟨batch1.pendingLogs.set "t1"
        ((batch1.pendingLogs.find? "t1").getD [] ++ [⟨"info", "m3", "a3"⟩])⟩, []) :=
  ⟨(high_severity_bypasses_batching batch1 10 "t1" "warning" "m3" "a3").1
      (Or.inr (Or.inl rfl)),
    ((high_severity_bypasses_batching batch1 10 "t1" "info" "m3" "a3").2
      (by decide)).1,
    ((high_severity_bypasses_batching batch1 10 "t1" "info" "m3" "a3").2
      (by decide)).2.1 (by decide)⟩

/-- C9: for a well-formed manager state, flushing an absent (hence, by
well-formedness, any empty) buffer broadcasts nothing and is a strict
no-op; flushing a non-empty buffer emits its entries exactly once as one
batch and empties the buffer; flushing twice equals flushing once; and
`flush_all` empties every buffer, emitting one batch per buffered task. -/
theorem flush_idempotent_and_complete (bs : BatchState) (tid : String)
    (hwf : BatchWF bs) :
    (bs.pendingLogs.find? tid = none → flushLogs bs tid = (bs, [])) ∧
    (∀ logs, bs.pendingLogs.find? tid = some logs →
      logs ≠ [] ∧
      flushLogs bs tid = (⟨bs.pendingLogs.pop tid⟩, [Delivery.batch tid logs]) ∧
      (flushLogs bs tid).1.pendingLogs.find? tid = none) ∧
    flushLogs (flushLogs bs tid).1 tid = ((flushLogs bs tid).1, []) ∧
    (flushAll bs).1.pendingLogs.entries = [] ∧
    (flushAll bs).2 =
      bs.pendingLogs.entries.map (fun p => Delivery.batch p.1 p.2) := by
  have hall := flushAll_fold bs.pendingLogs.entries [] hwf.1 hwf.2
  refine ⟨flushLogs_absent bs tid, ?_, ?_, ?_, ?_⟩
  · intro logs hfind
    have hne := BatchWF_nonempty bs hwf tid logs hfind
    have hflush := flushLogs_present bs tid logs hfind hne
    refine ⟨hne, hflush, ?_⟩
    rw [hflush]
    exact findEntry_popEntries_self bs.pendingLogs.entries tid hwf.1
  · cases hfind : bs.pendingLogs.find? tid with
    | none =>
      rw [flushLogs_absent bs tid hfind]
      exact flushLogs_absent bs tid hfind
    | some logs =>
      have hne := BatchWF_nonempty bs hwf tid logs hfind
      rw [flushLogs_present bs tid logs hfind hne]
      exact flushLogs_absent _ tid
        (findEntry_popEntries_self bs.pendingLogs.entries tid hwf.1)
  · show ((flushAll bs).1.pendingLogs.entries = [])
    rw [flushAll]
    show ((bs.pendingLogs.entries.map Prod.fst).foldl _ ((⟨⟨bs.pendingLogs.entries⟩⟩ : BatchState), [])).1.pendingLogs.entries = []
    rw [hall]
  · rw [flushAll]
    show ((bs.pendingLogs.entries.map Prod.fst).foldl _ ((⟨⟨bs.pendingLogs.entries⟩⟩ : BatchState), [])).2 = _
    rw [hall]
    simp

/-- C9 witness: the properties instantiated on a manager holding two
entries for `t1` and nothing for `t2`. -/
theorem flush_idempotent_and_complete_witness :
    flushLogs batch1 "t2" = (batch1, []) ∧
    ([entryInfo, entryInfo2] ≠ [] ∧
      flushLogs batch1 "t1" =
        (⟨batch1.pendingLogs.pop "t1"⟩,
          [Delivery.batch "t1" [entryInfo, entryInfo2]]) ∧
      (flushLogs batch1 "t1").1.pendingLogs.find? "t1" = none) ∧
    flushLogs (flushLogs batch1 "t1").1 "t1" = ((flushLogs batch1 "t1").1, []) ∧
    (flushAll batch1).1.pendingLogs.entries = [] ∧
    (flushAll batch1).2 =
      batch1.pendingLogs.entries.map (fun p => Delivery.batch p.1 p.2) :=
  ⟨(flush_idempotent_and_complete batch1 "t2" ⟨show (batch1.pendingLogs.keys).Nodup by decide, by decide⟩).1 (by decide),
    (flush_idempotent_and_complete batch1 "t1" ⟨show (batch1.pendingLogs.keys).Nodup by decide, by decide⟩).2.1
      [entryInfo, entryInfo2] (by decide),
    (flush_idempotent_and_complete batch1 "t1" ⟨show (batch1.pendingLogs.keys).Nodup by decide, by decide⟩).2.2.1,
    (flush_idempotent_and_complete batch1 "t1" ⟨show (batch1.pendingLogs.keys).Nodup by decide, by decide⟩).2.2.2.1,
    (flush_idempotent_and_complete batch1 "t1" ⟨show (batch1.pendingLogs.keys).Nodup by decide, by decide⟩).2.2.2.2⟩

end AutoTools
